import Mathlib

/-!
Verification of the version-comparison / update-check logic and the
fetch-models modal logic of the ai-toolbox front-end.

The TypeScript sources are shallowly embedded:

* `src/web/services/appApi.ts` — `compareVersions`, `checkForUpdates`
  (HTTP response and JSON body passed explicitly; JavaScript `Number`
  coercion of version segments is modelled by `jsNumber`).
* `src/web/components/common/FetchModelsModal/index.tsx` — the pure
  fragments `calculatedUrl`, `filteredModels`, the already-exists
  marking (`isExisting` / `checkboxDisabled`), `handleConfirm`, the
  state transition of `handleFetch`, and the custom-URL effect
  (lines 79-94) as an explicit event-step function `urlStep`.

String primitives are modelled on `List Char` (JavaScript strings are
sequences of code units; all inputs of interest here are plain
characters).  JavaScript numbers are modelled exactly: a finite value
is kept as an integer mantissa over a power-of-ten denominator
(`JsNum.fin m p` denotes m / 10^p), so IEEE-754 rounding of extreme
literals is not modelled; every comparison appearing in the claims is
over values where the two agree.
-/

/-! ## List-level string helpers -/

/-- True when, in `leadsWith s pat`, `pat` occurs at the start of `s`. -/
def leadsWith : List Char → List Char → Bool
  | _, [] => true
  | [], _ :: _ => false
  | c :: s, d :: pat => c == d && leadsWith s pat

/-- Whether, in `hasSubL s pat`, `pat` occurs contiguously somewhere in `s`
(the model of JavaScript `String.prototype.includes`). -/
def hasSubL : List Char → List Char → Bool
  | [], pat => pat.isEmpty
  | c :: s, pat => leadsWith (c :: s) pat || hasSubL s pat

/-- JavaScript `a.includes(b)` on strings. -/
def strHasSub (s pat : String) : Bool := hasSubL s.toList pat.toList

/-- JavaScript `s.endsWith(suf)`. -/
def strEndsWith (s suf : String) : Bool := leadsWith s.toList.reverse suf.toList.reverse

/-- JavaScript `s.startsWith(pre)`. -/
def strStartsWith (s pre : String) : Bool := leadsWith s.toList pre.toList

/-- Remove the last `n` characters of `s`. -/
def strDropRight (s : String) (n : Nat) : String :=
  String.mk (s.toList.take (s.toList.length - n))

/-- Remove the first `n` characters of `s`. -/
def strDrop (s : String) (n : Nat) : String := String.mk (s.toList.drop n)

/-- Accumulator version of splitting on `'.'`; mirrors
JavaScript `v.split('.')` (empty segments are kept, `"" → [""]`). -/
def splitSegs : List Char → List Char → List String
  | [], cur => [String.mk cur.reverse]
  | c :: rest, cur =>
    if c == '.' then String.mk cur.reverse :: splitSegs rest []
    else splitSegs rest (c :: cur)

/-- JavaScript `v.split('.')`. -/
def splitOnDot (s : String) : List String := splitSegs s.toList []

/-- ASCII case folding, the fragment of `toLowerCase` relevant here. -/
def jsToLower (s : String) : String := String.mk (s.toList.map Char.toLower)

/-! ## JavaScript numbers: the `Number(string)` coercion

`compareVersions` runs `v.split('.').map(Number)`; segments therefore
never contain `'.'`, but the full `StringToNumber` grammar (signs,
exponents, hex/octal/binary literals, `Infinity`, whitespace trimming)
is modelled.  A finite value `fin m p` denotes the rational m / 10^p. -/

/-- A JavaScript number as produced by `Number(string)`. -/
inductive JsNum where
  | nan
  | inf (pos : Bool)
  | fin (m : Int) (p : Nat)
deriving DecidableEq

/-- The `StrWhiteSpace` characters trimmed by `Number(string)`. -/
def isJsWhitespace (c : Char) : Bool :=
  c == ' ' || c == '\t' || c == '\n' || c == '\r' ||
  c == '\x0b' || c == '\x0c' || c == ' ' || c == '﻿'

/-- Trim JavaScript whitespace from both ends. -/
def trimJs (l : List Char) : List Char :=
  ((l.dropWhile isJsWhitespace).reverse.dropWhile isJsWhitespace).reverse

/-- Decimal value of a digit run (most significant first). -/
def digitsToNat (l : List Char) : Nat :=
  l.foldl (fun a c => a * 10 + (c.toNat - '0'.toNat)) 0

/-- Value of one digit in the given base, if valid. -/
def digitVal (base : Nat) (c : Char) : Option Nat :=
  let v :=
    if c.isDigit then some (c.toNat - '0'.toNat)
    else if 'a' ≤ c ∧ c ≤ 'z' then some (c.toNat - 'a'.toNat + 10)
    else if 'A' ≤ c ∧ c ≤ 'Z' then some (c.toNat - 'A'.toNat + 10)
    else none
  match v with
  | some d => if d < base then some d else none
  | none => none

/-- All-digits value in the given base; `none` when empty or any
character is invalid (`Number("0x")`, `Number("0b12")` are NaN). -/
def parseRadix (base : Nat) (l : List Char) : Option Nat :=
  match l with
  | [] => none
  | _ => l.foldl (fun acc c =>
      match acc, digitVal base c with
      | some a, some d => some (a * base + d)
      | _, _ => none) (some 0)

/-- Exponent suffix of a decimal literal: empty, or `e`/`E` with an
optional sign and at least one digit. -/
def parseExpPart : List Char → Option Int
  | [] => some 0
  | c :: rest =>
    if c == 'e' || c == 'E' then
      match rest with
      | '+' :: ds =>
        if ds.isEmpty || !(ds.all Char.isDigit) then none
        else some (Int.ofNat (digitsToNat ds))
      | '-' :: ds =>
        if ds.isEmpty || !(ds.all Char.isDigit) then none
        else some (-(Int.ofNat (digitsToNat ds)))
      | ds =>
        if ds.isEmpty || !(ds.all Char.isDigit) then none
        else some (Int.ofNat (digitsToNat ds))
    else none

/-- Exact value of the decimal literal `d1 . d2 × 10^e` as a `JsNum`. -/
def decValue (d1 d2 : List Char) (e : Int) : JsNum :=
  let mant : Int := Int.ofNat (digitsToNat (d1 ++ d2))
  let t : Int := e - Int.ofNat d2.length
  if 0 ≤ t then JsNum.fin (mant * (10 : Int) ^ t.toNat) 0
  else JsNum.fin mant (-t).toNat

/-- Unsigned decimal literal: digits, optional fraction, optional
exponent; the whole input must be consumed. -/
def parseDecMag (l : List Char) : Option JsNum :=
  let d1 := l.takeWhile Char.isDigit
  let r1 := l.dropWhile Char.isDigit
  match r1 with
  | '.' :: r2 =>
    let d2 := r2.takeWhile Char.isDigit
    let r3 := r2.dropWhile Char.isDigit
    if d1.isEmpty && d2.isEmpty then none
    else
      match parseExpPart r3 with
      | some e => some (decValue d1 d2 e)
      | none => none
  | _ =>
    if d1.isEmpty then none
    else
      match parseExpPart r1 with
      | some e => some (decValue d1 [] e)
      | none => none

/-- Magnitude after an optional sign: `Infinity` or a decimal literal;
anything else is NaN. -/
def parseUnsignedDec (neg : Bool) (mag : List Char) : JsNum :=
  if mag = "Infinity".toList then JsNum.inf (!neg)
  else
    match parseDecMag mag with
    | some (JsNum.fin m p) => if neg then JsNum.fin (-m) p else JsNum.fin m p
    | some v => v
    | none => JsNum.nan

/-- Signed decimal literal (hex/octal/binary literals take no sign). -/
def parseSigned : List Char → JsNum
  | '+' :: rest => parseUnsignedDec false rest
  | '-' :: rest => parseUnsignedDec true rest
  | l => parseUnsignedDec false l

/-- A base-prefixed integer literal (`0x…`, `0o…`, `0b…`). -/
def radixNum (base : Nat) (l : List Char) : JsNum :=
  match parseRadix base l with
  | some n => JsNum.fin (Int.ofNat n) 0
  | none => JsNum.nan

/-- The JavaScript `Number(string)` coercion (exact-rational model). -/
def jsNumber (s : String) : JsNum :=
  let t := trimJs s.toList
  match t with
  | [] => JsNum.fin 0 0
  | '0' :: c :: rest =>
    if c == 'x' || c == 'X' then radixNum 16 rest
    else if c == 'o' || c == 'O' then radixNum 8 rest
    else if c == 'b' || c == 'B' then radixNum 2 rest
    else parseSigned t
  | _ => parseSigned t

/-- JavaScript `<` on numbers: false whenever either side is NaN,
cross-multiplied integer comparison on finite values. -/
def jsLt : JsNum → JsNum → Bool
  | JsNum.nan, _ => false
  | _, JsNum.nan => false
  | JsNum.inf true, _ => false
  | JsNum.inf false, JsNum.inf true => true
  | JsNum.inf false, JsNum.inf false => false
  | JsNum.inf false, JsNum.fin _ _ => true
  | JsNum.fin _ _, JsNum.inf true => true
  | JsNum.fin _ _, JsNum.inf false => false
  | JsNum.fin m1 p1, JsNum.fin m2 p2 =>
    decide (m1 * (10 : Int) ^ p2 < m2 * (10 : Int) ^ p1)

/-- JavaScript `a > b`, which is the relational comparison `b < a`. -/
def jsGt (a b : JsNum) : Bool := jsLt b a

/-- JavaScript `x || 0` applied to an indexed segment: `undefined`
(modelled by the lookup default `nan`), NaN and ±0 are falsy and become
the literal `0`; every other number passes through. -/
def orZero : JsNum → JsNum
  | JsNum.nan => JsNum.fin 0 0
  | JsNum.fin m p => if m = 0 then JsNum.fin 0 0 else JsNum.fin m p
  | v => v

/-! ## `compareVersions` (appApi.ts lines 76-91) -/

/-- The value of `v.split('.').map(Number)`. -/
def versionParts (v : String) : List JsNum := (splitOnDot v).map jsNumber

/-- The value `parts[i] || 0`: segment value at index `i`, with out-of-range
access yielding `undefined` and hence `0`. -/
def segAt (parts : List JsNum) (i : Nat) : JsNum := orZero (parts.getD i JsNum.nan)

/-- One iteration of the comparison loop: `1` on greater, `-1` on
less, `0` to continue. -/
def stepCmp (parts1 parts2 : List JsNum) (i : Nat) : Int :=
  let num1 := segAt parts1 i
  let num2 := segAt parts2 i
  if jsGt num1 num2 then 1 else if jsLt num1 num2 then -1 else 0

/-- First nonzero entry (the loop's early `return`), `0` if none. -/
def firstNonzero : List Int → Int
  | [] => 0
  | r :: rs => if r = 0 then firstNonzero rs else r

/-- appApi.ts `compareVersions`: split both strings on `'.'`, coerce
each segment with `Number`, and compare index-by-index up to the
longer length, missing/NaN segments counting as 0. -/
def compareVersions (v1 v2 : String) : Int :=
  let parts1 := versionParts v1
  let parts2 := versionParts v2
  let maxLength := max parts1.length parts2.length
  firstNonzero ((List.range maxLength).map (stepCmp parts1 parts2))

/-! ## `checkForUpdates` (appApi.ts lines 38-56)

The network call and the JSON decoding are external effects; the
function is embedded over their results: the current version string,
and the HTTP response carrying either a decoded `latest.json` document
or a JSON parse failure. -/

def GITHUB_REPO : String := "coulsontl/ai-toolbox"

def GITHUB_URL : String := "https://github.com/" ++ GITHUB_REPO

def LATEST_JSON_URL : String := GITHUB_URL ++ "/releases/latest/download/latest.json"

/-- Decoded shape of `latest.json`; every field may be absent. -/
structure LatestRelease where
  version : Option String
  notes : Option String
  pub_date : Option String
deriving DecidableEq

structure UpdateInfo where
  hasUpdate : Bool
  currentVersion : String
  latestVersion : String
  releaseUrl : String
  releaseNotes : String
deriving DecidableEq

/-- Error kinds of the update check (§7 of the spec): a thrown
non-success-status error, or a JSON decode failure. -/
inductive AppError where
  | network (msg : String)
  | parse (msg : String)
deriving DecidableEq

/-- The fetch result: status flag, status text, and the body decode
outcome (`Except.error` when `response.json()` rejects). -/
structure HttpResponse where
  ok : Bool
  statusText : String
  body : Except String LatestRelease

/-- JavaScript `s.replace(/^v/, '')`: strip one leading `v`. -/
def stripLeadingV (s : String) : String :=
  if strStartsWith s "v" then strDrop s 1 else s

/-- The value `release.version?.replace(/^v/, '') || ''`. -/
def latestVersionOf (release : LatestRelease) : String :=
  match release.version with
  | some v => let s := stripLeadingV v; if s = "" then "" else s
  | none => ""

/-- appApi.ts `checkForUpdates`, over the explicit response. -/
def checkForUpdates (currentVersion : String) (response : HttpResponse) :
    Except AppError UpdateInfo :=
  if response.ok then
    match response.body with
    | Except.error e => Except.error (AppError.parse e)
    | Except.ok release =>
      let latestVersion := latestVersionOf release
      Except.ok
        { hasUpdate := decide (compareVersions latestVersion currentVersion > 0)
          currentVersion := currentVersion
          latestVersion := latestVersion
          releaseUrl := GITHUB_URL ++ "/releases/tag/v" ++ latestVersion
          releaseNotes :=
            match release.notes with
            | some n => if n = "" then "" else n
            | none => "" }
  else
    Except.error (AppError.network ("Failed to fetch latest.json: " ++ response.statusText))

/-! ## FetchModelsModal (index.tsx): data and pure fragments -/

/-- The `FetchedModel` record from FetchModelsModal/types. -/
structure FetchedModel where
  id : String
  name : Option String
  ownedBy : Option String
  created : Option Nat
deriving DecidableEq

instance : Inhabited FetchedModel := ⟨⟨"", none, none, none⟩⟩

inductive ApiType where
  | native
  | openai_compat
deriving DecidableEq

structure FetchModelsResponse where
  models : List FetchedModel
  total : Nat
deriving DecidableEq

/-- JavaScript `baseUrl.replace(/\/$/, '')`: strip one trailing slash. -/
def stripTrailingSlash (s : String) : String :=
  if strEndsWith s "/" then strDropRight s 1 else s

/-- index.tsx lines 49-76, the `calculatedUrl` memo: default
model-listing URL from `baseUrl`, `apiType`, `sdkType`, `apiKey`. -/
def calculatedUrl (baseUrl : String) (apiType : ApiType) (sdkType : Option String)
    (apiKey : Option String) : String :=
  let base := stripTrailingSlash baseUrl
  let baseStripped :=
    if strEndsWith base "/v1beta" then strDropRight base 7
    else if strEndsWith base "/v1" then strDropRight base 3
    else base
  match apiType with
  | ApiType.native =>
    if sdkType = some "@ai-sdk/google" then
      let url := baseStripped ++ "/v1beta/models"
      match apiKey with
      | some k => if k = "" then url else url ++ "?key=" ++ k
      | none => url
    else if sdkType = some "@ai-sdk/anthropic" then baseStripped ++ "/v1/models"
    else baseStripped ++ "/v1/models"
  | ApiType.openai_compat => baseStripped ++ "/v1/models"

/-- The claim's reading of `buildFetchUrl`, word for word: the base URL
with any trailing `/v1` or `/v1beta` suffix stripped, then
`/v1/models` for `openai_compat` and for every native non-Google case,
and `/v1beta/models` plus `?key=<apiKey>` whenever `apiKey` is present
in the native Google case. -/
def specBuildFetchUrl (baseUrl : String) (apiType : ApiType) (sdkType : Option String)
    (apiKey : Option String) : String :=
  let stripped :=
    if strEndsWith baseUrl "/v1beta" then strDropRight baseUrl 7
    else if strEndsWith baseUrl "/v1" then strDropRight baseUrl 3
    else baseUrl
  match apiType with
  | ApiType.openai_compat => stripped ++ "/v1/models"
  | ApiType.native =>
    if sdkType = some "@ai-sdk/google" then
      let url := stripped ++ "/v1beta/models"
      match apiKey with
      | some k => url ++ "?key=" ++ k
      | none => url
    else stripped ++ "/v1/models"

/-- The claim amended by what the code actually does: one trailing
slash is removed before the `/v1` / `/v1beta` suffix is stripped, and
the `?key=` query is appended only when `apiKey` is present and
non-empty. -/
def specBuildFetchUrlAmended (baseUrl : String) (apiType : ApiType) (sdkType : Option String)
    (apiKey : Option String) : String :=
  let base := stripTrailingSlash baseUrl
  let stripped :=
    if strEndsWith base "/v1beta" then strDropRight base 7
    else if strEndsWith base "/v1" then strDropRight base 3
    else base
  match apiType with
  | ApiType.openai_compat => stripped ++ "/v1/models"
  | ApiType.native =>
    if sdkType = some "@ai-sdk/google" then
      let url := stripped ++ "/v1beta/models"
      match apiKey with
      | some k => if k = "" then url else url ++ "?key=" ++ k
      | none => url
    else stripped ++ "/v1/models"

/-- index.tsx lines 38-46, the `filteredModels` memo: keep the models
one of whose fields `id`, `name`, `ownedBy` contains the search text
case-insensitively; an empty search text short-circuits to the input.
The `m.name && …` / `m.ownedBy && …` guards are JavaScript truthiness:
an absent or empty field never matches. -/
def filteredModels (models : List FetchedModel) (searchText : String) :
    List FetchedModel :=
  if searchText = "" then models
  else
    let lowerSearch := jsToLower searchText
    models.filter (fun m =>
      strHasSub (jsToLower m.id) lowerSearch ||
      (match m.name with
       | some n => if n = "" then false else strHasSub (jsToLower n) lowerSearch
       | none => false) ||
      (match m.ownedBy with
       | some o => if o = "" then false else strHasSub (jsToLower o) lowerSearch
       | none => false))

/-- The claim's matcher: the query is a case-insensitive substring of
`id`, of `name` when present, or of `ownedBy` when present. -/
def specMatches (q : String) (m : FetchedModel) : Bool :=
  strHasSub (jsToLower m.id) (jsToLower q) ||
  (match m.name with
   | some n => strHasSub (jsToLower n) (jsToLower q)
   | none => false) ||
  (match m.ownedBy with
   | some o => strHasSub (jsToLower o) (jsToLower q)
   | none => false)

/-- index.tsx line 144: `existingModelIds.includes(id)`, the
already-exists marking of a row. -/
def isExisting (existingModelIds : List String) (id : String) : Bool :=
  existingModelIds.contains id

/-- index.tsx line 170: `disabled: existingModelIds.includes(record.id)`
in `getCheckboxProps`. -/
def checkboxDisabled (existingModelIds : List String) (record : FetchedModel) : Bool :=
  existingModelIds.contains record.id

/-- The spec's `reconcile`: each fetched model paired with its
already-exists mark, in fetched order. -/
def reconcile (existingModelIds : List String) (fetched : List FetchedModel) :
    List (FetchedModel × Bool) :=
  fetched.map (fun m => (m, isExisting existingModelIds m.id))

/-- index.tsx lines 132-135, `handleConfirm`: the selected models are
filtered out of the full `models` list (not the search-filtered view). -/
def handleConfirm (models : List FetchedModel) (selectedRowKeys : List String) :
    List FetchedModel :=
  models.filter (fun m => selectedRowKeys.contains m.id)

/-- The component state touched by `handleFetch`. -/
structure FetchState where
  loading : Bool
  models : List FetchedModel
  selectedRowKeys : List String
  error : Option String
  fetched : Bool
deriving DecidableEq

/-- index.tsx lines 97-129, `handleFetch` as a state transition over
the outcome of the `fetch_provider_models` call: `setLoading(true)` and
`setError(null)` up front, then either the success updates or, in the
catch branch, only the error message; `finally` clears `loading`. -/
def handleFetch (st : FetchState) (result : Except String FetchModelsResponse) :
    FetchState :=
  let started := { st with loading := true, error := none }
  match result with
  | Except.ok response =>
    { started with
        models := response.models
        fetched := true
        selectedRowKeys := []
        loading := false }
  | Except.error errorMsg =>
    { started with error := some errorMsg, loading := false }

/-! ## The custom-URL field as an explicit event system (C4)

index.tsx keeps `customUrl` in state; the effect at lines 79-81 runs
`setCustomUrl(calculatedUrl)` whenever the `[calculatedUrl]` dependency
changes (React compares the memo value), and the reset button
(line 243) and the modal-open effect (lines 84-94) do the same
explicitly.  `urlStep` is that semantics over explicit events. -/

structure ModalProps where
  baseUrl : String
  apiKey : Option String
  sdkType : Option String
deriving DecidableEq

structure UrlFieldState where
  props : ModalProps
  apiType : ApiType
  customUrl : String
deriving DecidableEq

/-- The `calculatedUrl` memo over the current state. -/
def calcUrlOf (st : UrlFieldState) : String :=
  calculatedUrl st.props.baseUrl st.apiType st.props.sdkType st.props.apiKey

inductive UrlEvent where
  | editUrl (s : String)
  | setApiType (t : ApiType)
  | setProps (p : ModalProps)
  | resetClick
  | openModal

/-- One event of the modal's URL field.  After an input change the
effect on `[calculatedUrl]` fires exactly when the memo value changed,
and it unconditionally runs `setCustomUrl(calculatedUrl)`. -/
def urlStep (st : UrlFieldState) (e : UrlEvent) : UrlFieldState :=
  match e with
  | UrlEvent.editUrl s => { st with customUrl := s }
  | UrlEvent.resetClick => { st with customUrl := calcUrlOf st }
  | UrlEvent.openModal => { st with customUrl := calcUrlOf st }
  | UrlEvent.setApiType t =>
    let next := { st with apiType := t }
    if calcUrlOf next = calcUrlOf st then next
    else { next with customUrl := calcUrlOf next }
  | UrlEvent.setProps p =>
    let next := { st with props := p }
    if calcUrlOf next = calcUrlOf st then next
    else { next with customUrl := calcUrlOf next }

/-! ## Spec-side relation for C2 -/

/-- Segments neither less nor greater: the loop's "continue" case. -/
def jsEqv (a b : JsNum) : Prop := jsLt a b = false ∧ jsLt b a = false

/-- The claim's update condition: some index holds a strictly greater
latest segment while every earlier index holds equivalent segments
("first differing segment decides"). -/
def specSegGt (latest current : String) : Prop :=
  ∃ i, jsGt (segAt (versionParts latest) i) (segAt (versionParts current) i) = true ∧
    ∀ j, j < i → jsEqv (segAt (versionParts latest) j) (segAt (versionParts current) j)

/-! ## Order facts about `jsLt` -/

theorem jsLt_irrefl (a : JsNum) : jsLt a a = false := by
  cases a with
  | nan => rfl
  | inf p => cases p <;> rfl
  | fin m p => simp [jsLt]

theorem jsLt_asymm {a b : JsNum} (h : jsLt a b = true) : jsLt b a = false := by
  cases a with
  | nan => simp [jsLt] at h
  | inf p =>
    cases p with
    | true => cases b <;> simp [jsLt] at h
    | false =>
      cases b with
      | nan => simp [jsLt] at h
      | inf q =>
        cases q with
        | true => rfl
        | false => simp [jsLt] at h
      | fin m2 p2 => rfl
  | fin m1 p1 =>
    cases b with
    | nan => simp [jsLt] at h
    | inf q =>
      cases q with
      | true => rfl
      | false => simp [jsLt] at h
    | fin m2 p2 =>
      simp only [jsLt, decide_eq_true_eq] at h
      simp only [jsLt, decide_eq_false_iff_not]
      exact not_lt.mpr (le_of_lt h)

/-! ## Facts about the comparison loop -/

theorem stepCmp_eq_one_iff (p1 p2 : List JsNum) (i : Nat) :
    stepCmp p1 p2 i = 1 ↔ jsGt (segAt p1 i) (segAt p2 i) = true := by
  simp only [stepCmp]
  cases hg : jsGt (segAt p1 i) (segAt p2 i) with
  | true => simp
  | false =>
    cases hl : jsLt (segAt p1 i) (segAt p2 i) with
    | true => simp
    | false => simp

theorem stepCmp_eq_zero_iff (p1 p2 : List JsNum) (i : Nat) :
    stepCmp p1 p2 i = 0 ↔ jsEqv (segAt p1 i) (segAt p2 i) := by
  simp only [stepCmp, jsEqv, jsGt]
  rcases Bool.eq_false_or_eq_true (jsLt (segAt p2 i) (segAt p1 i)) with hba | hba
  · rcases Bool.eq_false_or_eq_true (jsLt (segAt p1 i) (segAt p2 i)) with hab | hab
    · simp [hba, hab]
    · simp [hba, hab]
  · simp [hba]

theorem stepCmp_neg (p1 p2 : List JsNum) (i : Nat) :
    stepCmp p1 p2 i = - stepCmp p2 p1 i := by
  simp only [stepCmp, jsGt]
  rcases Bool.eq_false_or_eq_true (jsLt (segAt p2 i) (segAt p1 i)) with hba | hba
  · simp [hba, jsLt_asymm hba]
  · rcases Bool.eq_false_or_eq_true (jsLt (segAt p1 i) (segAt p2 i)) with hab | hab
    · simp [hba, hab]
    · simp [hba, hab]

theorem stepCmp_cases (p1 p2 : List JsNum) (i : Nat) :
    stepCmp p1 p2 i = 1 ∨ stepCmp p1 p2 i = -1 ∨ stepCmp p1 p2 i = 0 := by
  simp only [stepCmp]
  cases jsGt (segAt p1 i) (segAt p2 i) with
  | true => simp
  | false =>
    cases jsLt (segAt p1 i) (segAt p2 i) with
    | true => simp
    | false => simp

theorem stepCmp_self (p : List JsNum) (i : Nat) : stepCmp p p i = 0 := by
  simp [stepCmp, jsGt, jsLt_irrefl]

theorem firstNonzero_eq_zero_of (l : List Int) (h : ∀ r ∈ l, r = 0) :
    firstNonzero l = 0 := by
  induction l with
  | nil => rfl
  | cons a l ih =>
    have ha : a = 0 := h a (by simp)
    simp only [firstNonzero, if_pos ha]
    exact ih fun r hr => h r (by simp [hr])

theorem firstNonzero_cases (l : List Int) (h : ∀ r ∈ l, r = 1 ∨ r = -1 ∨ r = 0) :
    firstNonzero l = 1 ∨ firstNonzero l = -1 ∨ firstNonzero l = 0 := by
  induction l with
  | nil => right; right; rfl
  | cons a l ih =>
    by_cases ha : a = 0
    · simpa [firstNonzero, ha] using ih fun r hr => h r (by simp [hr])
    · simpa [firstNonzero, ha] using h a (by simp)

theorem firstNonzero_map_neg (f g : Nat → Int) (h : ∀ i, f i = - g i) (l : List Nat) :
    firstNonzero (l.map f) = - firstNonzero (l.map g) := by
  induction l with
  | nil => simp [firstNonzero]
  | cons a l ih =>
    by_cases hg : g a = 0
    · have hf : f a = 0 := by rw [h a, hg, neg_zero]
      simp [firstNonzero, hf, hg, ih]
    · have hf : f a ≠ 0 := by rw [h a]; simpa using hg
      simp [firstNonzero, hf, hg, h a]

theorem firstNonzero_range'_eq_one (f : Nat → Int) :
    ∀ m s : Nat, firstNonzero ((List.range' s m).map f) = 1 ↔
      ∃ i, s ≤ i ∧ i < s + m ∧ f i = 1 ∧ ∀ j, s ≤ j → j < i → f j = 0 := by
  intro m
  induction m with
  | zero =>
    intro s
    constructor
    · intro h
      simp [List.range', firstNonzero] at h
    · rintro ⟨i, h1, h2, -, -⟩
      omega
  | succ m ih =>
    intro s
    rw [List.range'_succ, List.map_cons]
    by_cases hfs : f s = 0
    · rw [show firstNonzero (f s :: (List.range' (s + 1) m).map f)
            = firstNonzero ((List.range' (s + 1) m).map f) from by
          simp [firstNonzero, hfs]]
      rw [ih (s + 1)]
      constructor
      · rintro ⟨i, hi1, hi2, hi3, hi4⟩
        refine ⟨i, by omega, by omega, hi3, fun j hj1 hj2 => ?_⟩
        rcases Nat.eq_or_lt_of_le hj1 with he | hj
        · rw [← he]; exact hfs
        · exact hi4 j (by omega) hj2
      · rintro ⟨i, hi1, hi2, hi3, hi4⟩
        have hne : i ≠ s := fun he => by rw [he, hfs] at hi3; exact absurd hi3 (by norm_num)
        refine ⟨i, by omega, by omega, hi3, fun j hj1 hj2 => hi4 j (by omega) hj2⟩
    · rw [show firstNonzero (f s :: (List.range' (s + 1) m).map f) = f s from by
          simp [firstNonzero, hfs]]
      constructor
      · intro h
        exact ⟨s, le_refl s, by omega, h, fun j hj1 hj2 => by omega⟩
      · rintro ⟨i, hi1, hi2, hi3, hi4⟩
        rcases Nat.eq_or_lt_of_le hi1 with he | hj
        · rw [he]; exact hi3
        · exact absurd (hi4 s (le_refl s) hj) hfs

theorem segAt_of_len_le (parts : List JsNum) (i : Nat) (h : parts.length ≤ i) :
    segAt parts i = JsNum.fin 0 0 := by
  unfold segAt
  rw [List.getD_eq_default _ _ h]
  rfl

/-! ## `compareVersions`: range, anti-symmetry, reflexivity, and the
first-differing-segment characterization -/

theorem compareVersions_range (a b : String) :
    compareVersions a b = 1 ∨ compareVersions a b = -1 ∨ compareVersions a b = 0 := by
  simp only [compareVersions]
  apply firstNonzero_cases
  intro r hr
  simp only [List.mem_map] at hr
  obtain ⟨i, -, rfl⟩ := hr
  exact stepCmp_cases _ _ _

theorem compareVersions_antisym (a b : String) :
    compareVersions a b = - compareVersions b a := by
  simp only [compareVersions]
  rw [Nat.max_comm (versionParts b).length (versionParts a).length]
  exact firstNonzero_map_neg _ _ (stepCmp_neg _ _) _

theorem compareVersions_refl (a : String) : compareVersions a a = 0 := by
  simp only [compareVersions]
  apply firstNonzero_eq_zero_of
  intro r hr
  simp only [List.mem_map] at hr
  obtain ⟨i, -, rfl⟩ := hr
  exact stepCmp_self _ _

theorem compareVersions_eq_one_iff (a b : String) :
    compareVersions a b = 1 ↔ specSegGt a b := by
  simp only [compareVersions, specSegGt]
  rw [List.range_eq_range', firstNonzero_range'_eq_one]
  constructor
  · rintro ⟨i, -, -, h1, h0⟩
    exact ⟨i, (stepCmp_eq_one_iff _ _ _).1 h1,
      fun j hj => (stepCmp_eq_zero_iff _ _ _).1 (h0 j (Nat.zero_le j) hj)⟩
  · rintro ⟨i, hgt, hpre⟩
    have hi : i < max (versionParts a).length (versionParts b).length := by
      by_contra hni
      push_neg at hni
      have ha : (versionParts a).length ≤ i := le_trans (le_max_left _ _) hni
      have hb : (versionParts b).length ≤ i := le_trans (le_max_right _ _) hni
      rw [segAt_of_len_le _ _ ha, segAt_of_len_le _ _ hb] at hgt
      simp [jsGt, jsLt] at hgt
    exact ⟨i, Nat.zero_le i, by omega, (stepCmp_eq_one_iff _ _ _).2 hgt,
      fun j _ hj => (stepCmp_eq_zero_iff _ _ _).2 (hpre j hj)⟩

theorem compareVersions_pos_iff (a b : String) :
    compareVersions a b > 0 ↔ compareVersions a b = 1 := by
  rcases compareVersions_range a b with h | h | h <;> rw [h] <;> norm_num

/-! ## String and list containment lemmas -/

theorem leadsWith_refl (l : List Char) : leadsWith l l = true := by
  induction l with
  | nil => rfl
  | cons c s ih => simp [leadsWith, ih]

theorem hasSubL_self (l : List Char) : hasSubL l l = true := by
  cases l with
  | nil => rfl
  | cons c s => simp [hasSubL, leadsWith_refl]

theorem hasSubL_append (x y : List Char) : hasSubL (x ++ y) y = true := by
  induction x with
  | nil => simpa using hasSubL_self y
  | cons c x ih => simp [hasSubL, ih]

theorem toList_append (a b : String) : (a ++ b).toList = a.toList ++ b.toList := by
  cases a
  cases b
  rfl

theorem strHasSub_append (a b : String) : strHasSub (a ++ b) b = true := by
  unfold strHasSub
  rw [toList_append]
  exact hasSubL_append _ _

theorem contains_eq_decide_mem (l : List String) (a : String) :
    l.contains a = decide (a ∈ l) := by
  by_cases h : a ∈ l
  · rw [decide_eq_true h]
    exact List.elem_iff.2 h
  · rw [decide_eq_false h]
    exact Bool.eq_false_iff.mpr fun hc => h (List.elem_iff.1 hc)

/-! ## `filteredModels` agrees with the claim matcher on nonempty queries -/

theorem jsToLower_toList (s : String) :
    (jsToLower s).toList = s.toList.map Char.toLower := rfl

theorem hasSub_name_guard (n q : String) (c : Char) (cs : List Char)
    (hq : (jsToLower q).toList = c :: cs) :
    (if n = "" then false else strHasSub (jsToLower n) (jsToLower q))
      = strHasSub (jsToLower n) (jsToLower q) := by
  by_cases hn : n = ""
  · rw [if_pos hn, hn]
    show false = hasSubL (jsToLower "").toList (jsToLower q).toList
    rw [hq]
    rfl
  · rw [if_neg hn]

theorem filteredModels_eq_filter (models : List FetchedModel) (q : String) (hq : q ≠ "") :
    filteredModels models q = models.filter (specMatches q) := by
  obtain ⟨c, cs, hpat⟩ : ∃ c cs, (jsToLower q).toList = c :: cs := by
    cases hd : (jsToLower q).toList with
    | nil =>
      exfalso
      apply hq
      rw [jsToLower_toList] at hd
      have h2 : q.toList = [] := by simpa using hd
      apply String.ext
      simpa [String.toList] using h2
    | cons c cs => exact ⟨c, cs, rfl⟩
  unfold filteredModels
  rw [if_neg hq]
  apply List.filter_congr
  intro m hm
  obtain ⟨mid, mname, mowned, mcreated⟩ := m
  unfold specMatches
  cases mname with
  | none =>
    cases mowned with
    | none => rfl
    | some o => simp only [hasSub_name_guard o q c cs hpat]
  | some n =>
    cases mowned with
    | none => simp only [hasSub_name_guard n q c cs hpat]
    | some o => simp only [hasSub_name_guard n q c cs hpat, hasSub_name_guard o q c cs hpat]

/-! ## `calculatedUrl` equals the amended claim URL -/

theorem calculatedUrl_eq_amended (baseUrl : String) (apiType : ApiType)
    (sdkType apiKey : Option String) :
    calculatedUrl baseUrl apiType sdkType apiKey
      = specBuildFetchUrlAmended baseUrl apiType sdkType apiKey := by
  cases apiType with
  | openai_compat => rfl
  | native =>
    by_cases hg : sdkType = some "@ai-sdk/google"
    · simp only [calculatedUrl, specBuildFetchUrlAmended, if_pos hg]
    · by_cases ha : sdkType = some "@ai-sdk/anthropic"
      · simp only [calculatedUrl, specBuildFetchUrlAmended, if_neg hg, if_pos ha]
      · simp only [calculatedUrl, specBuildFetchUrlAmended, if_neg hg, if_neg ha]

/-! ## Claim theorems -/

/-- C1: `compareVersions` is total over every pair of strings (it is a
plain function of its two string arguments: splitting on `'.'`, coercing
each segment with `Number` — non-numeric and missing trailing segments
becoming 0 through `|| 0` — and comparing index-by-index up to the longer
sequence's length), its result always lies in {-1, 0, 1}, and
`compareVersions "1.2.0" "1.10.0" = -1` (numeric, not lexicographic)
while `compareVersions "1.2" "1.2.0" = 0`. -/
theorem c1_compareVersions_total_range_and_examples :
    (∀ v1 v2 : String,
      compareVersions v1 v2 = -1 ∨ compareVersions v1 v2 = 0 ∨ compareVersions v1 v2 = 1) ∧
    compareVersions "1.2.0" "1.10.0" = -1 ∧
    compareVersions "1.2" "1.2.0" = 0 := by
  refine ⟨fun v1 v2 => ?_, by decide, by decide⟩
  rcases compareVersions_range v1 v2 with h | h | h
  · exact Or.inr (Or.inr h)
  · exact Or.inl h
  · exact Or.inr (Or.inl h)

/-- C2: whenever `checkForUpdates` returns an `UpdateInfo`, its
`hasUpdate` flag is true exactly when the latest version's segment
sequence is segment-by-segment numerically greater than the current
version's, the first differing segment deciding; equal or lesser
sequences (malformed segments counting as 0) give `false`. -/
theorem c2_hasUpdate_iff_segment_greater (current : String) (resp : HttpResponse)
    (info : UpdateInfo) (h : checkForUpdates current resp = Except.ok info) :
    info.hasUpdate = true ↔ specSegGt info.latestVersion current := by
  obtain ⟨okFlag, statusText, body⟩ := resp
  cases okFlag with
  | false => simp [checkForUpdates] at h
  | true =>
    cases body with
    | error e => simp [checkForUpdates] at h
    | ok release =>
      have h2 := Except.ok.inj h
      rw [← h2]
      show decide (compareVersions (latestVersionOf release) current > 0) = true
        ↔ specSegGt (latestVersionOf release) current
      rw [decide_eq_true_eq]
      exact (compareVersions_pos_iff _ _).trans (compareVersions_eq_one_iff _ _)

/-- Witness for C2 at the spec's example: remote version `"2.0.0"`
against current `"1.9.9"` yields `hasUpdate = true`. -/
theorem c2_witness :
    checkForUpdates "1.9.9"
        { ok := true, statusText := "OK",
          body := Except.ok { version := some "v2.0.0", notes := some "notes", pub_date := some "d" } }
      = Except.ok
        { hasUpdate := true, currentVersion := "1.9.9", latestVersion := "2.0.0",
          releaseUrl := "https://github.com/coulsontl/ai-toolbox/releases/tag/v2.0.0",
          releaseNotes := "notes" } ∧
    (({ hasUpdate := true, currentVersion := "1.9.9", latestVersion := "2.0.0",
        releaseUrl := "https://github.com/coulsontl/ai-toolbox/releases/tag/v2.0.0",
        releaseNotes := "notes" } : UpdateInfo).hasUpdate = true ↔ specSegGt "2.0.0" "1.9.9") :=
  ⟨rfl, c2_hasUpdate_iff_segment_greater "1.9.9"
      { ok := true, statusText := "OK",
        body := Except.ok { version := some "v2.0.0", notes := some "notes", pub_date := some "d" } }
      { hasUpdate := true, currentVersion := "1.9.9", latestVersion := "2.0.0",
        releaseUrl := "https://github.com/coulsontl/ai-toolbox/releases/tag/v2.0.0",
        releaseNotes := "notes" } rfl⟩

/-- C3 counterexample: the claim's URL derivation is wrong on the code
in two reachable spots.  With a trailing slash on the base URL the code
first strips the slash and then the `/v1` suffix, while the claim's
words strip neither; and with an empty (but present) `apiKey` the code
appends no `?key=` query while the claim's words do. -/
theorem c3_counterexample_slash_and_empty_key :
    calculatedUrl "https://api.x.com/v1/" ApiType.openai_compat none none
        ≠ specBuildFetchUrl "https://api.x.com/v1/" ApiType.openai_compat none none ∧
    calculatedUrl "https://api.x.com" ApiType.native (some "@ai-sdk/google") (some "")
        ≠ specBuildFetchUrl "https://api.x.com" ApiType.native (some "@ai-sdk/google") (some "") := by
  decide

/-- C3 as amended: the derived URL equals the base URL with one
trailing `/` removed and then any trailing `/v1` or `/v1beta` suffix
stripped, followed by `/v1/models` for `openai_compat` and for every
native non-Google `sdkType`, and by `/v1beta/models` plus
`?key=<apiKey>` exactly when `apiKey` is present and non-empty in the
native Google case; the claim's two concrete examples hold. -/
theorem c3_amended_buildFetchUrl (baseUrl : String) (apiType : ApiType)
    (sdkType apiKey : Option String) :
    calculatedUrl baseUrl apiType sdkType apiKey
        = specBuildFetchUrlAmended baseUrl apiType sdkType apiKey ∧
    calculatedUrl "https://api.x.com/v1" ApiType.native (some "@ai-sdk/google") (some "KEY")
        = "https://api.x.com/v1beta/models?key=KEY" ∧
    calculatedUrl "https://api.x.com/v1beta" ApiType.native (some "@ai-sdk/anthropic") none
        = "https://api.x.com/v1/models" :=
  ⟨calculatedUrl_eq_amended baseUrl apiType sdkType apiKey, by decide, by decide⟩

/-- C4 (code bug): the claim — and the code's own comment "only if not
manually edited" — say a user edit of the URL field survives input
changes, but the effect on `[calculatedUrl]` unconditionally runs
`setCustomUrl(calculatedUrl)`.  Concretely: with a Google provider, the
user edits the URL to `https://my.custom/url`, then switches the API
type; the edit is silently replaced by the recomputed default. -/
theorem c4_dependency_change_overwrites_user_edit :
    (urlStep
        { props := { baseUrl := "https://api.x.com", apiKey := some "KEY",
                     sdkType := some "@ai-sdk/google" },
          apiType := ApiType.openai_compat,
          customUrl := "https://api.x.com/v1/models" }
        (UrlEvent.editUrl "https://my.custom/url")).customUrl = "https://my.custom/url" ∧
    (urlStep
        (urlStep
          { props := { baseUrl := "https://api.x.com", apiKey := some "KEY",
                       sdkType := some "@ai-sdk/google" },
            apiType := ApiType.openai_compat,
            customUrl := "https://api.x.com/v1/models" }
          (UrlEvent.editUrl "https://my.custom/url"))
        (UrlEvent.setApiType ApiType.native)).customUrl
      = "https://api.x.com/v1beta/models?key=KEY" := by
  constructor
  · rfl
  · decide

/-- C5: the search filter returns exactly the models one of whose fields
`id`, `name` (when present) or `ownedBy` (when present) contains the
query as a case-insensitive substring; it preserves the input order (the
output is a sublist of the input, which is itself left untouched — the
filter is pure) and an empty query is the identity.  The spec's example
matches via `ownedBy`. -/
theorem c5_filterBySearch_matches_and_identity (models : List FetchedModel) (q : String) :
    filteredModels models "" = models ∧
    filteredModels models q = (if q = "" then models else models.filter (specMatches q)) ∧
    List.Sublist (filteredModels models q) models ∧
    filteredModels [{ id := "gpt-4", name := none, ownedBy := some "OpenAI", created := none }] "openai"
      = [{ id := "gpt-4", name := none, ownedBy := some "OpenAI", created := none }] := by
  refine ⟨by simp [filteredModels], ?_, ?_, by decide⟩
  · by_cases hq : q = ""
    · simp [filteredModels, hq]
    · rw [if_neg hq, filteredModels_eq_filter models q hq]
  · by_cases hq : q = ""
    · simp [filteredModels, hq]
    · rw [filteredModels_eq_filter models q hq]
      exact List.filter_sublist _

/-- C6: reconciliation marks a fetched model as already-existing exactly
when its id is in the existing-id list, the checkbox-disabling predicate
coincides with that mark, the fetched order and multiplicity are fully
preserved (every entry stays visible, duplicates are not collapsed), and
the functions are pure, so the existing-id list is not mutated. -/
theorem c6_reconcile_marks_and_preserves (ids : List String) (fetched : List FetchedModel) :
    (reconcile ids fetched).map Prod.fst = fetched ∧
    reconcile ids fetched = fetched.map (fun m => (m, decide (m.id ∈ ids))) ∧
    (∀ m : FetchedModel, checkboxDisabled ids m = isExisting ids m.id) ∧
    (reconcile ids fetched).length = fetched.length := by
  refine ⟨?_, ?_, fun m => rfl, ?_⟩
  · simp [reconcile, Function.comp_def]
  · simp only [reconcile, isExisting]
    exact List.map_congr_left fun m hm => by rw [contains_eq_decide_mem]
  · simp [reconcile]

/-- C7: on a non-success HTTP status, `checkForUpdates` fails with the
network error whose message carries the HTTP status text (the status
text occurs in the message), and the error is the returned value — no
`UpdateInfo` is produced and nothing is retried or swallowed. -/
theorem c7_non_success_status_yields_network_error (current statusText : String)
    (body : Except String LatestRelease) :
    checkForUpdates current { ok := false, statusText := statusText, body := body }
        = Except.error (AppError.network ("Failed to fetch latest.json: " ++ statusText)) ∧
    strHasSub ("Failed to fetch latest.json: " ++ statusText) statusText = true :=
  ⟨rfl, strHasSub_append "Failed to fetch latest.json: " statusText⟩

/-- C8: a failing fetch is atomic with respect to the model list: the
error branch of `handleFetch` records the message and clears `loading`
but leaves `models` (and the selection and the fetched flag) exactly as
they were. -/
theorem c8_failed_fetch_preserves_models (st : FetchState) (errorMsg : String) :
    (handleFetch st (Except.error errorMsg)).models = st.models ∧
    (handleFetch st (Except.error errorMsg)).error = some errorMsg ∧
    (handleFetch st (Except.error errorMsg)).fetched = st.fetched ∧
    (handleFetch st (Except.error errorMsg)).selectedRowKeys = st.selectedRowKeys ∧
    (handleFetch st (Except.error errorMsg)).loading = false :=
  ⟨rfl, rfl, rfl, rfl, rfl⟩

/-- C9: `compareVersions` is anti-symmetric and reflexive over all
strings. -/
theorem c9_compareVersions_antisym_and_refl :
    (∀ a b : String, compareVersions a b = - compareVersions b a) ∧
    (∀ a : String, compareVersions a a = 0) :=
  ⟨compareVersions_antisym, compareVersions_refl⟩

/-- C10: confirming hands the success callback exactly the fetched
models whose ids are selected, taken from the full fetched list in its
order: the result is the membership-filter of `models`, a sublist of
`models` (fetched order, independent of selection order — permuting the
selected keys changes nothing), and a selected model hidden by the
current search filter is still included. -/
theorem c10_confirm_filters_full_list (models : List FetchedModel) (keys : List String) :
    handleConfirm models keys = models.filter (fun m => decide (m.id ∈ keys)) ∧
    List.Sublist (handleConfirm models keys) models ∧
    (∀ m : FetchedModel, m ∈ handleConfirm models keys ↔ m ∈ models ∧ m.id ∈ keys) ∧
    (∀ ks2 : List String, List.Perm keys ks2 →
      handleConfirm models keys = handleConfirm models ks2) ∧
    (∀ (q : String) (m : FetchedModel),
      m ∈ models → m ∉ filteredModels models q → m.id ∈ keys →
      m ∈ handleConfirm models keys) := by
  have hmem : ∀ m : FetchedModel, m ∈ handleConfirm models keys ↔ m ∈ models ∧ m.id ∈ keys := by
    intro m
    simp [handleConfirm, List.mem_filter, contains_eq_decide_mem]
  refine ⟨?_, List.filter_sublist _, hmem, ?_, ?_⟩
  · exact List.filter_congr fun m hm => contains_eq_decide_mem keys m.id
  · intro ks2 hp
    apply List.filter_congr
    intro m hm
    rw [contains_eq_decide_mem, contains_eq_decide_mem]
    simp [hp.mem_iff]
  · intro q m hm hhidden hk
    exact (hmem m).2 ⟨hm, hk⟩

/-- Witness for C10: with fetched list `[alpha, beta]`, search text
`"alp"` hiding `beta`, and `beta` selected, confirming still emits
`beta`. -/
theorem c10_witness :
    (⟨"beta", none, none, none⟩ : FetchedModel) ∈
      handleConfirm [⟨"alpha", none, none, none⟩, ⟨"beta", none, none, none⟩] ["beta"] := by
  have h := c10_confirm_filters_full_list
    [⟨"alpha", none, none, none⟩, ⟨"beta", none, none, none⟩] ["beta"]
  exact h.2.2.2.2 "alp" ⟨"beta", none, none, none⟩ (by decide) (by decide) (by decide)
